import Mathlib

/-!
Shallow embedding of the DeepState test-case reducer
(`bin/deepstate/reducer.py`) and proofs about its specification.

Conventions of the embedding:
* a Candidate (Python `bytearray`) is a `List Nat` of byte values;
* a trace line (Python `str`) is a `List Char`, modelled without its
  trailing newline; a trace is a `List (List Char)`;
* Python functions that can raise an uncaught exception
  (`UnboundLocalError` for a local variable read before assignment,
  `IndexError`, `ValueError`, `TypeError`) are modelled in `Option`,
  with `none` standing for the raised exception;
* byte offsets parsed from trace lines are `Int`, because the parser
  also stores the sentinel `-1` for a structural span whose first byte
  was never recorded, and Python slicing treats negative indices
  specially.
-/

namespace Reducer

abbrev Line := List Char

abbrev Trace := List Line

/-- Python `pat in line` (substring containment) for char lists. -/
def hasSub (pat : List Char) : List Char → Bool
  | [] => pat.isEmpty
  | x :: xs => pat.isPrefixOf (x :: xs) || hasSub pat xs

/-- Python whitespace for `str.split()` (the forms used by trace lines). -/
def isPyWS (c : Char) : Bool :=
  c = ' ' || c = '\t' || c = '\n' || c = '\r'

/-- Python `line.split()`: split on whitespace runs, dropping empty words. -/
def pyWords (l : List Char) : List (List Char) :=
  (l.splitOnP isPyWS).filter (fun w => !w.isEmpty)

/-- Digit-string value; `none` models Python `ValueError` from `int()`. -/
def digitsVal (cs : List Char) : Option Nat :=
  if cs.isEmpty then none
  else cs.foldlM (fun acc c => if c.isDigit then some (acc * 10 + (c.toNat - 48)) else none) 0

/-- Python `int(tok)` on a whitespace-free token. -/
def pyInt : List Char → Option Int
  | '-' :: rest => (digitsVal rest).map (fun n => -(n : Int))
  | '+' :: rest => (digitsVal rest).map (fun n => (n : Int))
  | cs => (digitsVal cs).map (fun n => (n : Int))

/-- Python `int(line.split()[-1])`: `none` models IndexError / ValueError. -/
def lastTokenInt (line : Line) : Option Int :=
  match (pyWords line).getLast? with
  | none => none
  | some w => pyInt w

/- The literal markers the reducer greps for in oracle output. -/

def mFailed : List Char := "ERROR: Failed:".toList

def mCrashed : List Char := "ERROR: Crashed".toList

def mStartOneOf : List Char := "STARTING OneOf CALL".toList

def mReadingByte : List Char := "Reading byte at".toList

def mFinishOneOf : List Char := "FINISHED OneOf CALL".toList

def mStartMulti : List Char := "STARTING MULTI-BYTE READ".toList

def mFinishMulti : List Char := "FINISHED MULTI-BYTE READ".toList

def mConverting : List Char := "Converting out-of-range value".toList

/-- Function `checks(result)` from reducer.py: the Criteria Checker.  With a truthy
`--criteria` string, a line must contain it; otherwise a line must contain
one of the two default failure markers.  `some []` models the falsy empty
criteria string, which Python treats like no criteria at all. -/
def checks (checkString : Option (List Char)) (result : Trace) : Bool :=
  result.any (fun line =>
    match checkString with
    | some cs =>
      if cs.isEmpty then hasSub mFailed line || hasSub mCrashed line
      else hasSub cs line
    | none => hasSub mFailed line || hasSub mCrashed line)

/-- Parser state of `structure(result)`: accumulated spans, the stack of
pending OneOf starts, and `lastRead` (`none` = local variable not yet
assigned, so reading it raises UnboundLocalError). -/
structure SState where
  OneOfs : List (Int × Int)
  currentOneOf : List Int
  lastRead : Option Int
deriving Repr, DecidableEq

/-- One line of `structure(result)`'s loop.  The three marker tests are an
`if`/`elif` chain in the source.  `none` models an uncaught exception. -/
def structureStep (st : SState) (line : Line) : Option SState :=
  if hasSub mStartOneOf line then
    some { st with currentOneOf := st.currentOneOf ++ [(-1 : Int)] }
  else if hasSub mReadingByte line then
    match lastTokenInt line with
    | none => none
    | some n =>
      let cur := if st.currentOneOf.getLast? = some (-1 : Int) then
          st.currentOneOf.dropLast ++ [n]
        else st.currentOneOf
      some { st with lastRead := some n, currentOneOf := cur }
  else if hasSub mFinishOneOf line then
    match st.currentOneOf.getLast?, st.lastRead with
    | some last, some lr =>
      some { OneOfs := st.OneOfs ++ [(last, lr)],
             currentOneOf := st.currentOneOf.dropLast,
             lastRead := some lr }
    | _, _ => none
  else
    some st

/-- Function `structure(result)` from reducer.py.  `currentTestLen` is
`len(currentTest)` at call time (used only in `--noStructure` mode).
Returns the spans and the final `lastRead`; `none` models the
UnboundLocalError / IndexError the Python raises on malformed traces. -/
def structureFn (noStructure : Bool) (currentTestLen : Nat) (result : Trace) :
    Option (List (Int × Int) × Int) :=
  if noStructure then some ([], (currentTestLen : Int))
  else
    match result.foldlM structureStep ⟨[], [], none⟩ with
    | none => none
    | some st =>
      match st.lastRead with
      | none => none
      | some lr => some (st.OneOfs, lr)

/-- Parser state of `rangeConversions(result)`.  `lastRead` and
`currentMulti` use `none` for a local variable not yet assigned. -/
structure CState where
  conversions : List ((Option Int × Int) × Int)
  startedMulti : Bool
  multiFirst : Option Int
  lastRead : Option Int
  currentMulti : Option (Option Int × Int)
deriving Repr, DecidableEq

/-- One line of `rangeConversions(result)`'s loop; the five marker tests
are successive independent `if`s in the source, so they are applied in
sequence to the same line. -/
def rangeStep (st : CState) (line : Line) : Option CState := do
  let st1 ←
    if hasSub mReadingByte line then
      match lastTokenInt line with
      | none => none
      | some n => some { st with lastRead := some n }
    else some st
  let st2 := if hasSub mStartMulti line then { st1 with startedMulti := true } else st1
  let st3 ←
    if st2.startedMulti && st2.multiFirst.isNone && hasSub mReadingByte line then
      match st2.lastRead with
      | none => none
      | some lr => some { st2 with multiFirst := some lr }
    else some st2
  let st4 ←
    if hasSub mFinishMulti line then
      match st3.lastRead with
      | none => none
      | some lr =>
        some { st3 with currentMulti := some (st3.multiFirst, lr),
                        startedMulti := false, multiFirst := none }
    else some st3
  if hasSub mConverting line then
    match st4.currentMulti, lastTokenInt line with
    | some cm, some v => some { st4 with conversions := st4.conversions ++ [(cm, v)] }
    | _, _ => none
  else some st4

/-- Function `rangeConversions(result)` from reducer.py; `none` models the
UnboundLocalError / ValueError the Python raises on malformed traces. -/
def rangeConversions (result : Trace) : Option (List ((Option Int × Int) × Int)) :=
  (result.foldlM rangeStep ⟨[], false, none, none, none⟩).map (fun st => st.conversions)

/-- Python `test[i]` on a bytearray: nonnegative and negative indices,
`none` models IndexError. -/
def byteIndex (t : List Nat) (i : Int) : Option Nat :=
  if 0 ≤ i then t.get? i.toNat
  else if -i ≤ (t.length : Int) then t.get? (t.length - (-i).toNat)
  else none

/-- Python `test[i] = v` on a bytearray: the assigned value must be a
byte (else ValueError) and the index in range (else IndexError). -/
def byteAssign (t : List Nat) (i : Int) (v : Int) : Option (List Nat) :=
  if 0 ≤ v ∧ v < 256 then
    if 0 ≤ i ∧ i < (t.length : Int) then some (t.set i.toNat v.toNat)
    else if -(t.length : Int) ≤ i ∧ i < 0 then some (t.set (t.length - (-i).toNat) v.toNat)
    else none
  else none

/-- Iteration core of the zeroing loop: `k` remaining iterations
starting at index `lo`. -/
def zeroFuel : Nat → List Nat → Int → Option (List Nat)
  | 0, t, _ => some t
  | k + 1, t, lo => (byteAssign t lo 0).bind fun t1 => zeroFuel k t1 (lo + 1)

/-- Loop `for b in range(lo, hi): test[b] = 0`, the zeroing loop inside
`fixRangeConversions`: `range(lo, hi)` performs `max(hi - lo, 0)`
iterations starting at `lo`. -/
def zeroRange (t : List Nat) (lo hi : Int) : Option (List Nat) :=
  zeroFuel (hi - lo).toNat t lo

/-- The `for (pos, value) in conversions` loop of `fixRangeConversions`.
A conversion whose span end is at or past the end of the test `break`s
out of the loop; a `none` span start reaching the `range()` call models
the Python TypeError.  Returns the new test and `numConversions`. -/
def fixLoop : List Nat → Nat → List ((Option Int × Int) × Int) → Option (List Nat × Nat)
  | test, n, [] => some (test, n)
  | test, n, ((pos0, pos1), value) :: rest =>
    if (test.length : Int) ≤ pos1 then some (test, n)
    else if value < 255 then
      match byteIndex test pos1 with
      | none => none
      | some b =>
        if value < (b : Int) then
          match pos0 with
          | none => none
          | some p0 => do
            let t1 ← zeroRange test p0 pos1
            let t2 ← byteAssign t1 pos1 value
            fixLoop t2 (n + 1) rest
        else fixLoop test n rest
    else fixLoop test n rest

/-- Function `fixRangeConversions(test, conversions)` from reducer.py (the test is
returned rather than mutated in place; the printed count is dropped). -/
def fixRangeConversions (noStructure : Bool) (test : List Nat)
    (conversions : List ((Option Int × Int) × Int)) : Option (List Nat) :=
  if noStructure then some test
  else (fixLoop test 0 conversions).map (fun p => p.1)

/-- View a list of conversions with concrete natural-number offsets and
values — the shape `rangeConversions` records on a well-formed trace —
at the parser's type. -/
def liftConvs (cs : List ((Nat × Nat) × Nat)) : List ((Option Int × Int) × Int) :=
  cs.map (fun c => ((some (c.1.1 : Int), (c.1.2 : Int)), (c.2 : Int)))

/-- Effective start position of the Python slices `t[i:]` / `t[:i]` for a
sequence of length `n`, covering negative indices. -/
def pySliceIdx (n : Nat) (i : Int) : Nat :=
  if i < 0 then n - min n (-i).toNat else min i.toNat n

/-- Python `t[:j]`. -/
def pyTake (t : List Nat) (j : Int) : List Nat :=
  t.take (pySliceIdx t.length j)

/-- Python `t[i:]`. -/
def pyDrop (t : List Nat) (i : Int) : List Nat :=
  t.drop (pySliceIdx t.length i)

/- The candidate mutations enumerated by the reduction passes, one
definition per pass, each lifted verbatim from the `newTest = ...`
expressions of `main`'s loop. -/

/-- OneOf-removal mutation: `currentTest[:c[0]] + currentTest[c[1]+1:]`
for a structural span `c` produced by `structure`. -/
def mutOneOfRemoval (t : List Nat) (c : Int × Int) : List Nat :=
  pyTake t c.1 ++ pyDrop t (c.2 + 1)

/-- Chunk-removal mutation: `currentTest[:b] + currentTest[b+k:]`. -/
def mutChunkRemoval (t : List Nat) (b k : Nat) : List Nat :=
  t.take b ++ t.drop (b + k)

/-- Reduce-and-delete mutation: decrement byte `b`, then
`newTest[:b+1] + newTest[b+k+1:]`.  The pass only reaches this with
`b < len(currentTest) - k` and `currentTest[b] != 0`. -/
def mutReduceDelete (t : List Nat) (b k : Nat) : List Nat :=
  let t1 := t.set b (t.getD b 0 - 1)
  t1.take (b + 1) ++ t1.drop (b + k + 1)

/-- Byte-range-removal mutation: `currentTest[:b] + currentTest[v:]`. -/
def mutRangeRemoval (t : List Nat) (b v : Nat) : List Nat :=
  t.take b ++ t.drop v

/-- Byte-reduction mutation: set byte `b` to the smaller value `v`. -/
def mutByteReduce (t : List Nat) (b v : Nat) : List Nat :=
  t.set b v

/-- Pattern-search mutation: replace the two-byte windows at `b1` and
`b2` by the same candidate replacement `banew`:
`part1 + banew + part2 + banew + part3`. -/
def mutPattern (t : List Nat) (b1 b2 : Nat) (banew : List Nat) : List Nat :=
  t.take b1 ++ banew ++ (t.drop (b1 + 2)).take (b2 - (b1 + 2)) ++ banew ++ t.drop (b2 + 2)

/-- The final zero-padding step of `main` (lines guarded by
`if not args.noPad`): pad the candidate to one byte past `s[1]`. -/
def padFinal (noPad : Bool) (s1 : Int) (t : List Nat) : List Nat :=
  if noPad = false ∧ (t.length : Int) < s1 + 1 then
    t ++ List.replicate (s1 + 1 - t.length).toNat 0
  else t

/-- The reducer options the embedded fragments depend on. -/
structure Config where
  checkString : Option (List Char)
  search : Bool
  noStructure : Bool
  noPad : Bool
deriving Repr, DecidableEq

/-- The commit body of `updateCurrent(newTest)`: the bytes actually
written to the output path are `newTest` after conversion normalization
against the accepted trace `r`.  `none` models an uncaught exception
inside `rangeConversions` or `fixRangeConversions`. -/
def updateCurrentModel (cfg : Config) (r : Trace) (newTest : List Nat) :
    Option (List Nat) :=
  match rangeConversions r with
  | none => none
  | some convs => fixRangeConversions cfg.noStructure newTest convs

/-- The accept/commit step shared by every pass:
`r = writeAndRunCandidate(newTest); if checks(r): updateCurrent(newTest)`.
`none` = mutation rejected; `some w` = mutation accepted and the bytes
`w` committed to the output path (`some none` = crash while committing). -/
def passAccept (cfg : Config) (oracle : List Nat → Trace) (newTest : List Nat) :
    Option (Option (List Nat)) :=
  if checks cfg.checkString (oracle newTest) then
    some (updateCurrentModel cfg (oracle newTest) newTest)
  else none

/-- Outcome of the pre-loop phase of `main` (lines 176-204): everything
from the initial `runCandidate(test)` up to the unread-suffix
truncation and its checkpoint write.  `writes` records each byte string
written to the output path, `runs` each byte buffer the oracle was
invoked on. -/
inductive Phase1Result where
  /-- `TimeoutException` raised by `runCandidate` outside the `try`
  of the main loop: the process dies with no output written. -/
  | timedOut (writes runs : List (List Nat)) : Phase1Result
  /-- any other uncaught Python exception (parser errors, the failed
  `assert checks(r)`). -/
  | excCrash (writes runs : List (List Nat)) : Phase1Result
  /-- `return 1` after "STARTING TEST DOES NOT SATISFY REDUCTION
  CRITERIA!": the candidate file is never opened. -/
  | preconditionExit (runs : List (List Nat)) : Phase1Result
  /-- reaches the main reduction loop with candidate `currentTest`,
  structure `s` and last accepted trace `r`. -/
  | ready (currentTest : List Nat) (s : List (Int × Int) × Int) (r : Trace)
      (writes runs : List (List Nat)) : Phase1Result
deriving Repr, DecidableEq

/-- Lines 176-204 of reducer.py.  `oracle` maps the byte content of the
candidate the oracle is invoked on to its trace; `timeoutAt k` tells
whether elapsed wall-clock time exceeds `args.timeout` at the `k`-th
`runCandidate` call (with `--timeout 0` it is true from the very first
call). -/
def initialPhase (cfg : Config) (oracle : List Nat → Trace)
    (timeoutAt : Nat → Bool) (testBytes : List Nat) : Phase1Result :=
  if timeoutAt 0 then .timedOut [] []
  else
    let initial := oracle testBytes
    if cfg.search = false ∧ checks cfg.checkString initial = false then
      .preconditionExit [testBytes]
    else
      match rangeConversions initial with
      | none => .excCrash [] [testBytes]
      | some convs =>
        match fixRangeConversions cfg.noStructure testBytes convs with
        | none => .excCrash [] [testBytes]
        | some fixedTest =>
          if timeoutAt 1 then .timedOut [] [testBytes]
          else
            let r := oracle fixedTest
            if checks cfg.checkString r = false then .excCrash [] [testBytes, fixedTest]
            else
              match structureFn cfg.noStructure fixedTest.length initial with
              | none => .excCrash [] [testBytes, fixedTest]
              | some s =>
                let current := if s.2 + 1 < (fixedTest.length : Int) then
                    pyTake fixedTest (s.2 + 1)
                  else fixedTest
                let writes := if current ≠ testBytes then [current] else []
                .ready current s r writes [testBytes, fixedTest]

/-- The byte strings a `Phase1Result` wrote to the output path. -/
def Phase1Result.writesOf : Phase1Result → List (List Nat)
  | .timedOut w _ => w
  | .excCrash w _ => w
  | .preconditionExit _ => []
  | .ready _ _ _ w _ => w

/-- The byte buffers a `Phase1Result` ran the oracle on. -/
def Phase1Result.runsOf : Phase1Result → List (List Nat)
  | .timedOut _ r => r
  | .excCrash _ r => r
  | .preconditionExit r => r
  | .ready _ _ _ _ r => r

/-- One committed mutation in `--noStructure` mode, at the state
granularity `(currentTest, s[1])`: `updateCurrent` sets
`currentTest := c` (`fixRangeConversions` returns immediately) and then
`s := structure(r) = ([], len(currentTest))`. -/
def updateNS (_st : List Nat × Int) (c : List Nat) : List Nat × Int :=
  (c, (c.length : Int))

/-- A whole `--noStructure` run that reaches finalization, abstracted to
the sequence `commits` of candidates the passes committed: the starting
state after lines 189-197 (`s = ([], len(original))`, no truncation since
`len+1 < len` fails), every commit through `updateNS`, then the final
padding.  Returns the bytes of the final output-file write. -/
def runNS (orig : List Nat) (commits : List (List Nat)) : List Nat :=
  let stF := commits.foldl updateNS (orig, (orig.length : Int))
  padFinal false stF.2 stF.1

/-! ### Helper lemmas about the bytearray primitives -/

/-- The position a Python bytearray index `i` denotes on a sequence of
length `n`, once known to be in range. -/
def normIdx (n : Nat) (i : Int) : Nat :=
  if 0 ≤ i then i.toNat else n - (-i).toNat

/-- The in-range condition under which Python bytearray indexing at `i`
succeeds on a sequence of length `n`. -/
def inRangeIdx (n : Nat) (i : Int) : Prop :=
  (0 ≤ i ∧ i < (n : Int)) ∨ (-(n : Int) ≤ i ∧ i < 0)

/-- The conversions recorded for a candidate are consistent with it:
each in-bounds conversion already has its converted value at the span
end and zeros in the rest of the span. -/
def ConsistentConvs (t : List Nat) (cs : List ((Nat × Nat) × Nat)) : Prop :=
  ∀ c ∈ cs, c.1.2 < t.length →
    t.getD c.1.2 0 = c.2 ∧ ∀ i, c.1.1 ≤ i → i < c.1.2 → t.getD i 0 = 0

lemma byteIndex_eq_some {t : List Nat} {i : Int} {b : Nat}
    (h : byteIndex t i = some b) :
    normIdx t.length i < t.length ∧ b = t.getD (normIdx t.length i) 0 := by
  unfold byteIndex at h
  unfold normIdx
  by_cases hi : 0 ≤ i
  · simp only [if_pos hi] at h ⊢
    rw [List.get?_eq_getElem?] at h
    rcases List.getElem?_eq_some.mp h with ⟨hlt, hb⟩
    exact ⟨hlt, by simp [List.getD_eq_getElem?_getD, h]⟩
  · simp only [if_neg hi] at h ⊢
    by_cases hle : -i ≤ (t.length : Int)
    · simp only [if_pos hle] at h
      rw [List.get?_eq_getElem?] at h
      rcases List.getElem?_eq_some.mp h with ⟨hlt, hb⟩
      exact ⟨hlt, by simp [List.getD_eq_getElem?_getD, h]⟩
    · simp [if_neg hle] at h

lemma byteIndex_some_of {t : List Nat} {i : Int} (h : inRangeIdx t.length i) :
    byteIndex t i = some (t.getD (normIdx t.length i) 0) := by
  unfold byteIndex normIdx
  by_cases hi : 0 ≤ i
  · have hlt : i.toNat < t.length := by rcases h with ⟨_, h2⟩ | ⟨_, h2⟩ <;> omega
    simp only [if_pos hi]
    rw [List.get?_eq_getElem?, List.getElem?_eq_getElem hlt]
    simp [List.getD_eq_getElem?_getD, List.getElem?_eq_getElem hlt]
  · have hle : -i ≤ (t.length : Int) := by rcases h with ⟨h1, _⟩ | ⟨h1, _⟩ <;> omega
    have hlt : t.length - (-i).toNat < t.length := by omega
    simp only [if_neg hi, if_pos hle]
    rw [List.get?_eq_getElem?, List.getElem?_eq_getElem hlt]
    simp [List.getD_eq_getElem?_getD, List.getElem?_eq_getElem hlt]

lemma byteIndex_bounds {t : List Nat} {i : Int} {b : Nat}
    (h : byteIndex t i = some b) : inRangeIdx t.length i := by
  unfold byteIndex at h
  unfold inRangeIdx
  by_cases hi : 0 ≤ i
  · simp only [if_pos hi] at h
    rw [List.get?_eq_getElem?] at h
    rcases List.getElem?_eq_some.mp h with ⟨hlt, _⟩
    left; omega
  · simp only [if_neg hi] at h
    by_cases hle : -i ≤ (t.length : Int)
    · right; omega
    · simp [if_neg hle] at h

lemma byteAssign_eq_some {t : List Nat} {i v : Int} {t' : List Nat}
    (h : byteAssign t i v = some t') :
    0 ≤ v ∧ v < 256 ∧ normIdx t.length i < t.length ∧
      t' = t.set (normIdx t.length i) v.toNat := by
  unfold byteAssign at h
  unfold normIdx
  by_cases hv : 0 ≤ v ∧ v < 256
  · simp only [if_pos hv] at h
    by_cases h1 : 0 ≤ i ∧ i < (t.length : Int)
    · simp only [if_pos h1] at h
      refine ⟨hv.1, hv.2, ?_, ?_⟩
      · simp only [if_pos h1.1]; omega
      · simp only [if_pos h1.1]; exact (Option.some_injective _ h).symm
    · simp only [if_neg h1] at h
      by_cases h2 : -(t.length : Int) ≤ i ∧ i < 0
      · simp only [if_pos h2] at h
        have hi : ¬ 0 ≤ i := by omega
        refine ⟨hv.1, hv.2, ?_, ?_⟩
        · simp only [if_neg hi]; omega
        · simp only [if_neg hi]; exact (Option.some_injective _ h).symm
      · simp [if_neg h2] at h
  · simp [if_neg hv] at h

lemma byteAssign_length {t : List Nat} {i v : Int} {t' : List Nat}
    (h : byteAssign t i v = some t') : t'.length = t.length := by
  rcases byteAssign_eq_some h with ⟨_, _, _, ht'⟩
  simp [ht']

lemma getD_set_self {t : List Nat} {j : Nat} {v : Nat} (hj : j < t.length) :
    (t.set j v).getD j 0 = v := by
  simp [List.getD_eq_getElem?_getD, List.getElem?_set_self hj]

lemma getD_set_ne {t : List Nat} {i j : Nat} {v : Nat} (hij : i ≠ j) :
    (t.set i v).getD j 0 = t.getD j 0 := by
  simp [List.getD_eq_getElem?_getD, List.getElem?_set_ne hij]

lemma zeroFuel_length : ∀ {k : Nat} {t : List Nat} {lo : Int} {t' : List Nat},
    zeroFuel k t lo = some t' → t'.length = t.length := by
  intro k
  induction k with
  | zero =>
    intro t lo t' h
    injection h with h1
    rw [← h1]
  | succ k ih =>
    intro t lo t' h
    rcases Option.bind_eq_some.mp h with ⟨t1, hba, h⟩
    calc t'.length = t1.length := ih h
      _ = t.length := byteAssign_length hba

lemma zeroRange_length {t t' : List Nat} {lo hi : Int}
    (h : zeroRange t lo hi = some t') : t'.length = t.length :=
  zeroFuel_length h

lemma zeroFuel_getD_le : ∀ {k : Nat} {t : List Nat} {lo : Int} {t' : List Nat},
    zeroFuel k t lo = some t' →
    ∀ j, j < t.length → t'.getD j 0 ≤ t.getD j 0 := by
  intro k
  induction k with
  | zero =>
    intro t lo t' h j _
    injection h with h1
    rw [← h1]
  | succ k ih =>
    intro t lo t' h j hj
    rcases Option.bind_eq_some.mp h with ⟨t1, hba, h⟩
    rcases byteAssign_eq_some hba with ⟨_, _, hidx, ht1⟩
    have hlen1 : t1.length = t.length := by rw [ht1]; simp
    have step : t1.getD j 0 ≤ t.getD j 0 := by
      rw [ht1]
      by_cases hje : normIdx t.length lo = j
      · rw [hje, getD_set_self (by omega)]; exact Nat.zero_le _
      · rw [getD_set_ne hje]
    exact le_trans (ih h j (by omega)) step

lemma zeroRange_getD_le {t t' : List Nat} {lo hi : Int}
    (h : zeroRange t lo hi = some t') :
    ∀ j, j < t.length → t'.getD j 0 ≤ t.getD j 0 :=
  zeroFuel_getD_le h

lemma zeroFuel_nat_spec : ∀ (k lo hi : Nat), hi - lo = k → ∀ (t : List Nat), hi ≤ t.length →
    ∃ t', zeroFuel k t (lo : Int) = some t' ∧
      ∀ j, j < t.length →
        t'.getD j 0 = if lo ≤ j ∧ j < hi then 0 else t.getD j 0 := by
  intro k
  induction k with
  | zero =>
    intro lo hi hk t hhi
    exact ⟨t, rfl, fun j hj => by rw [if_neg (by omega)]⟩
  | succ k ih =>
    intro lo hi hk t hhi
    have hlt : lo < hi := by omega
    have hba : byteAssign t (lo : Int) 0 = some (t.set lo 0) := by
      unfold byteAssign
      rw [if_pos (by omega : (0 : Int) ≤ 0 ∧ (0 : Int) < 256),
        if_pos (by constructor <;> omega : (0 : Int) ≤ (lo : Int) ∧ (lo : Int) < (t.length : Int))]
      simp
    obtain ⟨t', hzr, hpt⟩ :=
      ih (lo + 1) hi (by omega) (t.set lo 0) (by rw [List.length_set]; omega)
    refine ⟨t', ?_, ?_⟩
    · show (byteAssign t (lo : Int) 0).bind (fun t1 => zeroFuel k t1 ((lo : Int) + 1)) = some t'
      rw [hba]
      rw [show Option.bind (some (t.set lo 0)) (fun t1 => zeroFuel k t1 ((lo : Int) + 1)) =
        zeroFuel k (t.set lo 0) ((lo : Int) + 1) from rfl]
      rw [show ((lo : Int) + 1) = ((lo + 1 : Nat) : Int) by omega]
      exact hzr
    · intro j hj
      rw [hpt j (by rw [List.length_set]; omega)]
      by_cases hje : lo = j
      · rw [if_neg (by omega), if_pos (by omega), hje, getD_set_self (by omega)]
      · by_cases hin : lo + 1 ≤ j ∧ j < hi
        · rw [if_pos hin, if_pos (by omega)]
        · rw [if_neg hin, if_neg (by omega), getD_set_ne hje]

lemma zeroRange_nat_spec (lo hi : Nat) {t : List Nat} (hhi : hi ≤ t.length) :
    ∃ t', zeroRange t (lo : Int) (hi : Int) = some t' ∧
      ∀ j, j < t.length →
        t'.getD j 0 = if lo ≤ j ∧ j < hi then 0 else t.getD j 0 := by
  have h := zeroFuel_nat_spec (hi - lo) lo hi rfl t hhi
  unfold zeroRange
  rw [show ((hi : Int) - (lo : Int)).toNat = hi - lo by omega]
  exact h

/-- Case analysis on one step of `fixLoop` over a cons cell, packaging
all the ways the loop body can proceed. -/
lemma fixLoop_cons_cases {t : List Nat} {n : Nat} {pos0 : Option Int}
    {pos1 value : Int} {rest : List ((Option Int × Int) × Int)} {t' : List Nat} {m : Nat}
    (h : fixLoop t n (((pos0, pos1), value) :: rest) = some (t', m)) :
    ((t.length : Int) ≤ pos1 ∧ t' = t ∧ m = n) ∨
    (¬ (t.length : Int) ≤ pos1 ∧ value < 255 ∧
      ∃ b, byteIndex t pos1 = some b ∧ value < (b : Int) ∧
        ∃ p0, pos0 = some p0 ∧
          ∃ t1, zeroRange t p0 pos1 = some t1 ∧
            ∃ t2, byteAssign t1 pos1 value = some t2 ∧
              fixLoop t2 (n + 1) rest = some (t', m)) ∨
    (¬ (t.length : Int) ≤ pos1 ∧
      (¬ value < 255 ∨ ∃ b, byteIndex t pos1 = some b ∧ ¬ value < (b : Int)) ∧
      fixLoop t n rest = some (t', m)) := by
  simp only [fixLoop] at h
  split at h
  next h1 =>
    simp only [Option.some.injEq, Prod.mk.injEq] at h
    exact Or.inl ⟨h1, h.1.symm, h.2.symm⟩
  next h1 =>
    split at h
    next h2 =>
      split at h
      next hbi => exact absurd h (by simp)
      next b hbi =>
        split at h
        next h3 =>
          split at h
          next => exact absurd h (by simp)
          next p0 =>
            rcases Option.bind_eq_some.mp h with ⟨t1, hzr, h⟩
            rcases Option.bind_eq_some.mp h with ⟨t2, hba, h⟩
            exact Or.inr (Or.inl ⟨h1, h2, b, hbi, h3, p0, rfl, t1, hzr, t2, hba, h⟩)
        next h3 =>
          exact Or.inr (Or.inr ⟨h1, Or.inr ⟨b, hbi, h3⟩, h⟩)
    next h2 =>
      exact Or.inr (Or.inr ⟨h1, Or.inl h2, h⟩)

lemma fixLoop_length {cs : List ((Option Int × Int) × Int)} :
    ∀ {t : List Nat} {n : Nat} {t' : List Nat} {m : Nat},
      fixLoop t n cs = some (t', m) → t'.length = t.length := by
  induction cs with
  | nil =>
    intro t n t' m h
    change some (t, n) = some (t', m) at h
    simp only [Option.some.injEq, Prod.mk.injEq] at h
    rw [← h.1]
  | cons c rest ih =>
    intro t n t' m h
    obtain ⟨⟨pos0, pos1⟩, value⟩ := c
    rcases fixLoop_cons_cases h with
      ⟨_, rfl, _⟩ |
      ⟨_, _, b, _, _, p0, _, t1, hzr, t2, hba, hrec⟩ |
      ⟨_, _, hrec⟩
    · rfl
    · calc t'.length = t2.length := ih hrec
        _ = t1.length := byteAssign_length hba
        _ = t.length := zeroRange_length hzr
    · exact ih hrec

lemma fixLoop_getD_le {cs : List ((Option Int × Int) × Int)} :
    ∀ {t : List Nat} {n : Nat} {t' : List Nat} {m : Nat},
      fixLoop t n cs = some (t', m) →
      ∀ j, j < t.length → t'.getD j 0 ≤ t.getD j 0 := by
  induction cs with
  | nil =>
    intro t n t' m h j _
    change some (t, n) = some (t', m) at h
    simp only [Option.some.injEq, Prod.mk.injEq] at h
    rw [← h.1]
  | cons c rest ih =>
    intro t n t' m h j hj
    obtain ⟨⟨pos0, pos1⟩, value⟩ := c
    rcases fixLoop_cons_cases h with
      ⟨_, rfl, _⟩ |
      ⟨_, _, b, hbi, hvb, p0, _, t1, hzr, t2, hba, hrec⟩ |
      ⟨_, _, hrec⟩
    · exact le_refl _
    · have hlen1 : t1.length = t.length := zeroRange_length hzr
      have hlen2 : t2.length = t1.length := byteAssign_length hba
      have hz : t1.getD j 0 ≤ t.getD j 0 := zeroRange_getD_le hzr j hj
      rcases byteAssign_eq_some hba with ⟨hv0, _, hidx2, ht2⟩
      have step : t2.getD j 0 ≤ t.getD j 0 := by
        rw [ht2]
        by_cases hje : normIdx t1.length pos1 = j
        · have hj' : normIdx t.length pos1 = j := by rw [← hlen1]; exact hje
          rw [hje, getD_set_self (by omega)]
          rcases byteIndex_eq_some hbi with ⟨hidx, hb⟩
          rw [hj'] at hb
          rw [hb] at hvb
          omega
        · rw [getD_set_ne hje]; exact hz
      exact le_trans (ih hrec j (by omega)) step
    · exact ih hrec j hj

lemma fixLoop_cons_break {t : List Nat} {n : Nat} {pos0 : Option Int} {pos1 value : Int}
    {rest : List ((Option Int × Int) × Int)} (h1 : (t.length : Int) ≤ pos1) :
    fixLoop t n (((pos0, pos1), value) :: rest) = some (t, n) := by
  simp only [fixLoop, if_pos h1]

lemma fixLoop_cons_skip {t : List Nat} {n : Nat} {pos0 : Option Int} {pos1 value : Int}
    {rest : List ((Option Int × Int) × Int)} {b : Nat}
    (h1 : ¬ (t.length : Int) ≤ pos1) (hbi : byteIndex t pos1 = some b)
    (h3 : ¬ value < (b : Int)) :
    fixLoop t n (((pos0, pos1), value) :: rest) = fixLoop t n rest := by
  by_cases h2 : value < 255
  · simp only [fixLoop, if_neg h1, if_pos h2, hbi, if_neg h3]
  · simp only [fixLoop, if_neg h1, if_neg h2]

/-- Applying the conversion loop to its own result applies no further
conversion: every conversion that fired left its target byte at the
converted value, bytes only ever decrease afterwards, and the strict
comparison `value < test[pos[1]]` therefore fails on the second run. -/
lemma fixLoop_again {cs : List ((Option Int × Int) × Int)} :
    ∀ {t : List Nat} {n : Nat} {t' : List Nat} {m : Nat},
      fixLoop t n cs = some (t', m) →
      ∀ k, fixLoop t' k cs = some (t', k) := by
  induction cs with
  | nil =>
    intro t n t' m h k
    change some (t, n) = some (t', m) at h
    simp only [Option.some.injEq, Prod.mk.injEq] at h
    rw [fixLoop]
  | cons c rest ih =>
    intro t n t' m h k
    obtain ⟨⟨pos0, pos1⟩, value⟩ := c
    rcases fixLoop_cons_cases h with
      ⟨hb, rfl, _⟩ |
      ⟨h1, h2, b, hbi, h3, p0, hp, t1, hzr, t2, hba, hrec⟩ |
      ⟨h1, hskip, hrec⟩
    · exact fixLoop_cons_break hb
    · have hlen1 : t1.length = t.length := zeroRange_length hzr
      have hlen2 : t2.length = t1.length := byteAssign_length hba
      have hlen' : t'.length = t2.length := fixLoop_length hrec
      rcases byteAssign_eq_some hba with ⟨hv0, _, hidx2, ht2⟩
      have hrange : inRangeIdx t'.length pos1 := by
        have := byteIndex_bounds hbi
        unfold inRangeIdx at this ⊢
        omega
      have hbi' : byteIndex t' pos1 =
          some (t'.getD (normIdx t'.length pos1) 0) := byteIndex_some_of hrange
      have hle : t'.getD (normIdx t'.length pos1) 0 ≤ value.toNat := by
        have hidx : normIdx t'.length pos1 = normIdx t1.length pos1 := by
          rw [hlen', hlen2]
        have h2getD : t2.getD (normIdx t1.length pos1) 0 = value.toNat := by
          rw [ht2]; exact getD_set_self hidx2
        have := fixLoop_getD_le hrec (normIdx t1.length pos1) (by omega)
        rw [hidx]
        omega
      have hnot : ¬ value < ((t'.getD (normIdx t'.length pos1) 0 : Nat) : Int) := by
        omega
      rw [fixLoop_cons_skip (by omega) hbi' hnot]
      exact ih hrec k
    · have hlen' : t'.length = t.length := fixLoop_length hrec
      rcases hskip with h255 | ⟨b, hbi, h3⟩
      · have hnot255 : ¬ value < 255 := h255
        rw [show fixLoop t' k (((pos0, pos1), value) :: rest) = fixLoop t' k rest by
          simp only [fixLoop, if_neg (by omega : ¬ (t'.length : Int) ≤ pos1), if_neg hnot255]]
        exact ih hrec k
      · have hrange : inRangeIdx t'.length pos1 := by
          have := byteIndex_bounds hbi
          unfold inRangeIdx at this ⊢
          omega
        have hbi' : byteIndex t' pos1 =
            some (t'.getD (normIdx t'.length pos1) 0) := byteIndex_some_of hrange
        have hdec : t'.getD (normIdx t'.length pos1) 0 ≤ t.getD (normIdx t.length pos1) 0 := by
          have hidx : normIdx t'.length pos1 = normIdx t.length pos1 := by rw [hlen']
          rcases byteIndex_eq_some hbi with ⟨hidxlt, _⟩
          rw [hidx]
          exact fixLoop_getD_le hrec (normIdx t.length pos1) hidxlt
        have hbval : b = t.getD (normIdx t.length pos1) 0 := (byteIndex_eq_some hbi).2
        have hnot : ¬ value < ((t'.getD (normIdx t'.length pos1) 0 : Nat) : Int) := by
          omega
        rw [fixLoop_cons_skip (by omega) hbi' hnot]
        exact ih hrec k

lemma fixLoop_cons_apply {t : List Nat} {n : Nat} {p0 pos1 value : Int}
    {rest : List ((Option Int × Int) × Int)} {b : Nat} {t1 t2 : List Nat}
    (h1 : ¬ (t.length : Int) ≤ pos1) (h2 : value < 255)
    (hbi : byteIndex t pos1 = some b) (h3 : value < (b : Int))
    (hzr : zeroRange t p0 pos1 = some t1) (hba : byteAssign t1 pos1 value = some t2) :
    fixLoop t n (((some p0, pos1), value) :: rest) = fixLoop t2 (n + 1) rest := by
  simp only [fixLoop, if_neg h1, if_pos h2, hbi, if_pos h3, hzr]
  change (byteAssign t1 pos1 value).bind (fun x => fixLoop x (n + 1) rest) =
    fixLoop t2 (n + 1) rest
  rw [hba]
  rfl

lemma byteIndex_natCast {t : List Nat} {e : Nat} (he : e < t.length) :
    byteIndex t (e : Int) = some (t.getD e 0) := by
  have h := byteIndex_some_of (t := t) (i := (e : Int)) (Or.inl (by constructor <;> omega))
  rwa [show normIdx t.length (e : Int) = e by unfold normIdx; simp] at h

lemma byteAssign_natCast {t : List Nat} {e v : Nat} (he : e < t.length) (hv : v < 256) :
    byteAssign t (e : Int) (v : Int) = some (t.set e v) := by
  unfold byteAssign
  rw [if_pos (by constructor <;> omega : (0 : Int) ≤ (v : Int) ∧ (v : Int) < 256),
    if_pos (by constructor <;> omega : (0 : Int) ≤ (e : Int) ∧ (e : Int) < (t.length : Int))]
  simp

lemma fixLoop_consistent {cs : List ((Nat × Nat) × Nat)} :
    ∀ {t : List Nat} {n : Nat}, ConsistentConvs t cs →
      fixLoop t n (liftConvs cs) = some (t, n) := by
  induction cs with
  | nil => intro t n _; rfl
  | cons c rest ih =>
    intro t n hcons
    obtain ⟨⟨s, e⟩, v⟩ := c
    by_cases he : e < t.length
    · have hbi : byteIndex t (e : Int) = some (t.getD e 0) := byteIndex_natCast he
      have hval : t.getD e 0 = v := (hcons ((s, e), v) (by simp) he).1
      have hskip : ¬ (v : Int) < ((t.getD e 0 : Nat) : Int) := by omega
      rw [show liftConvs (((s, e), v) :: rest) =
        ((some (s : Int), (e : Int)), (v : Int)) :: liftConvs rest from rfl]
      rw [fixLoop_cons_skip (by omega) hbi (by rw [hval] at hskip ⊢; exact hskip)]
      exact ih (fun c hc => hcons c (List.mem_cons_of_mem _ hc))
    · rw [show liftConvs (((s, e), v) :: rest) =
        ((some (s : Int), (e : Int)), (v : Int)) :: liftConvs rest from rfl]
      exact fixLoop_cons_break (by omega)

lemma fixRangeConversions_length {ns : Bool} {t : List Nat}
    {cs : List ((Option Int × Int) × Int)} {t' : List Nat}
    (h : fixRangeConversions ns t cs = some t') : t'.length = t.length := by
  cases ns with
  | true =>
    change some t = some t' at h
    injection h with h1
    rw [← h1]
  | false =>
    change (fixLoop t 0 cs).map (fun p => p.1) = some t' at h
    cases hfl : fixLoop t 0 cs with
    | none => rw [hfl] at h; exact absurd h (by simp)
    | some p =>
      obtain ⟨tf, m⟩ := p
      rw [hfl, Option.map_some'] at h
      injection h with h1
      rw [← h1]
      exact fixLoop_length hfl

/-! ### Claim theorems -/

/-- Claim C5, counterexample.  With candidate `[5, 5]`, the conversion
list holds an out-of-bounds conversion `((0,5),1)` followed by an
in-bounds conversion `((0,1),0)` that meets both of the claim's
conditions (`1 < 2` in bounds, value `0 <` byte `5` at the end offset):
the code leaves the candidate untouched because `break` aborts the loop
at the out-of-bounds conversion, while processing the second conversion
alone does change the candidate, so conversions after an out-of-bounds
one are not processed as the claim states. -/
theorem c5_break_skips_later_conversions :
    fixRangeConversions false [5, 5] (liftConvs [((0, 5), 1), ((0, 1), 0)]) = some [5, 5] ∧
    fixRangeConversions false [5, 5] (liftConvs [((0, 1), 0)]) = some [0, 0] ∧
    (1 : Nat) < 2 ∧ (0 : Nat) < 5 := by
  refine ⟨by decide, by decide, by omega, by omega⟩

/-- Claim C5 (amended): `fixRangeConversions` processes the recorded
conversions in order and (1) stops at the first conversion whose span
end is not strictly inside the candidate, ignoring it and every
conversion after it; (2) applies every earlier in-bounds conversion
whose value is strictly below the byte at the span end, zeroing offsets
`start..end-1` and writing the value at `end`; (3) skips an in-bounds
conversion failing the value test, leaving the candidate unchanged. -/
theorem c5_fix_characterization :
    (∀ (t : List Nat) (n : Nat) (c : (Option Int × Int) × Int)
        (rest : List ((Option Int × Int) × Int)),
      (t.length : Int) ≤ c.1.2 →
      fixLoop t n (c :: rest) = some (t, n)) ∧
    (∀ (t : List Nat) (n s e v : Nat) (rest : List ((Option Int × Int) × Int)),
      e < t.length → v < t.getD e 0 → t.getD e 0 < 256 →
      ∃ t', fixLoop t n (((some (s : Int), (e : Int)), (v : Int)) :: rest) =
          fixLoop t' (n + 1) rest ∧
        t'.length = t.length ∧
        ∀ j, j < t.length →
          t'.getD j 0 = if j = e then v else if s ≤ j ∧ j < e then 0 else t.getD j 0) ∧
    (∀ (t : List Nat) (n s e v : Nat) (rest : List ((Option Int × Int) × Int)),
      e < t.length → t.getD e 0 ≤ v →
      fixLoop t n (((some (s : Int), (e : Int)), (v : Int)) :: rest) =
        fixLoop t n rest) := by
  refine ⟨?_, ?_, ?_⟩
  · intro t n c rest h
    obtain ⟨⟨pos0, pos1⟩, value⟩ := c
    exact fixLoop_cons_break h
  · intro t n s e v rest he hv hb
    obtain ⟨t1, hzr, hpt1⟩ := zeroRange_nat_spec s e (t := t) (by omega)
    have hlen1 : t1.length = t.length := zeroRange_length hzr
    have hv256 : v < 256 := by omega
    have hba : byteAssign t1 (e : Int) (v : Int) = some (t1.set e v) :=
      byteAssign_natCast (by omega) hv256
    refine ⟨t1.set e v, ?_, by simp [hlen1], ?_⟩
    · exact fixLoop_cons_apply (by omega) (by omega) (byteIndex_natCast he)
        (by omega) hzr hba
    · intro j hj
      by_cases hje : j = e
      · rw [hje, getD_set_self (by omega), if_pos rfl]
      · rw [getD_set_ne (Ne.symm hje), hpt1 j hj, if_neg hje]
  · intro t n s e v rest he hv
    exact fixLoop_cons_skip (by omega) (byteIndex_natCast he) (by omega)

/-- Claim C5, witness for the amended theorem. -/
theorem c5_fix_characterization_witness :
    (([9, 9] : List Nat).length : Int) ≤ 2 ∧
    fixLoop [9, 9] 0 [((some 0, 2), 1)] = some ([9, 9], 0) ∧
    (1 < ([9, 9, 9] : List Nat).length ∧ 7 < [9, 9, 9].getD 1 0 ∧ [9, 9, 9].getD 1 0 < 256) ∧
    (∃ t', fixLoop [9, 9, 9] 0 [((some (0 : Nat), (1 : Nat)), ((7 : Nat) : Int))] =
        fixLoop t' 1 [] ∧ t'.length = ([9, 9, 9] : List Nat).length ∧
        ∀ j, j < ([9, 9, 9] : List Nat).length →
          t'.getD j 0 = if j = 1 then 7 else if 0 ≤ j ∧ j < 1 then 0 else [9, 9, 9].getD j 0) ∧
    (0 < ([9, 9] : List Nat).length ∧ [9, 9].getD 0 0 ≤ 9 ∧
      fixLoop [9, 9] 0 [((some (0 : Nat), (0 : Nat)), ((9 : Nat) : Int))] = fixLoop [9, 9] 0 []) := by
  refine ⟨by decide, ?_, ⟨by decide, by decide, by decide⟩, ?_, by decide, by decide, ?_⟩
  · exact c5_fix_characterization.1 [9, 9] 0 ((some 0, 2), 1) [] (by decide)
  · exact c5_fix_characterization.2.1 [9, 9, 9] 0 0 1 7 [] (by decide) (by decide) (by decide)
  · exact c5_fix_characterization.2.2 [9, 9] 0 0 0 9 [] (by decide) (by decide)

/-- Claim C2, counterexample.  A well-formed trace with two nested
OneOf calls whose single byte read happens while the inner call is
innermost leaves the outer span's start at the sentinel `-1`; Python's
negative-index slicing then makes the OneOf-removal mutation for that
span grow the candidate from 4 to 6 bytes, and an oracle whose trace
satisfies the Criteria Checker gets that longer candidate accepted and
committed, so an accepted mutation of a listed pass can increase the
length. -/
theorem c2_oneof_removal_can_grow :
    structureFn false 4
      ["STARTING OneOf CALL".toList, "STARTING OneOf CALL".toList,
       "Reading byte at 0".toList, "FINISHED OneOf CALL".toList,
       "FINISHED OneOf CALL".toList] = some ([(0, 0), (-1, 0)], 0) ∧
    mutOneOfRemoval [1, 2, 3, 4] (-1, 0) = [1, 2, 3, 2, 3, 4] ∧
    4 < (mutOneOfRemoval [1, 2, 3, 4] (-1, 0)).length ∧
    passAccept ⟨none, false, false, false⟩
      (fun _ => ["ERROR: Failed: x".toList]) [1, 2, 3, 2, 3, 4] =
      some (some [1, 2, 3, 2, 3, 4]) := by
  refine ⟨by decide, by decide, by decide, by decide⟩

/-- Claim C2 (amended): provided every structural span fed to the
OneOf-removal pass is well formed (nonnegative start, start at most one
past the end, as holds whenever each OneOf records a read while
innermost), every mutation of the listed passes keeps the candidate
length no larger, and the conversion normalization performed when a
mutation is committed preserves length, so the length is non-increasing
across all listed reduction passes. -/
theorem c2_shrink_of_wellformed :
    (∀ (t : List Nat) (c : Int × Int), 0 ≤ c.1 → c.1 ≤ c.2 + 1 →
      (mutOneOfRemoval t c).length ≤ t.length) ∧
    (∀ (t : List Nat) (b k : Nat), (mutChunkRemoval t b k).length ≤ t.length) ∧
    (∀ (t : List Nat) (b k : Nat), (mutReduceDelete t b k).length ≤ t.length) ∧
    (∀ (t : List Nat) (b v : Nat), b ≤ v → (mutRangeRemoval t b v).length ≤ t.length) ∧
    (∀ (t : List Nat) (b v : Nat), (mutByteReduce t b v).length = t.length) ∧
    (∀ (t : List Nat) (b1 b2 : Nat) (banew : List Nat),
      b1 + 2 ≤ b2 → b2 + 2 ≤ t.length → banew.length ≤ 2 →
      (mutPattern t b1 b2 banew).length ≤ t.length) ∧
    (∀ (ns : Bool) (t : List Nat) (cs : List ((Option Int × Int) × Int)) (t' : List Nat),
      fixRangeConversions ns t cs = some t' → t'.length = t.length) := by
  refine ⟨?_, ?_, ?_, ?_, ?_, ?_, ?_⟩
  · intro t c h0 h1
    unfold mutOneOfRemoval pyTake pyDrop pySliceIdx
    rw [if_neg (by omega : ¬ c.1 < 0), if_neg (by omega : ¬ c.2 + 1 < 0)]
    rw [List.length_append, List.length_take, List.length_drop]
    omega
  · intro t b k
    unfold mutChunkRemoval
    rw [List.length_append, List.length_take, List.length_drop]
    omega
  · intro t b k
    unfold mutReduceDelete
    simp only [List.length_append, List.length_take, List.length_drop, List.length_set]
    omega
  · intro t b v hbv
    unfold mutRangeRemoval
    rw [List.length_append, List.length_take, List.length_drop]
    omega
  · intro t b v
    exact List.length_set t b v
  · intro t b1 b2 banew h1 h2 h3
    unfold mutPattern
    simp only [List.length_append, List.length_take, List.length_drop]
    omega
  · intro ns t cs t' h
    exact fixRangeConversions_length h

/-- Claim C2, witness for the amended theorem. -/
theorem c2_shrink_of_wellformed_witness :
    ((0 : Int) ≤ 0 ∧ (0 : Int) ≤ 1 + 1) ∧
    (mutOneOfRemoval [1, 2, 3] (0, 1)).length ≤ ([1, 2, 3] : List Nat).length ∧
    (mutChunkRemoval [1, 2, 3] 1 1).length ≤ ([1, 2, 3] : List Nat).length ∧
    (mutReduceDelete [1, 2, 3] 0 1).length ≤ ([1, 2, 3] : List Nat).length ∧
    (mutRangeRemoval [1, 2, 3] 0 2).length ≤ ([1, 2, 3] : List Nat).length ∧
    (mutByteReduce [1, 2, 3] 0 0).length = ([1, 2, 3] : List Nat).length ∧
    (mutPattern [1, 2, 3, 4, 5, 6, 7] 0 2 [9]).length ≤ ([1, 2, 3, 4, 5, 6, 7] : List Nat).length ∧
    (fixRangeConversions false [5, 5] (liftConvs [((0, 1), 2)]) = some [0, 2] ∧
      ([0, 2] : List Nat).length = ([5, 5] : List Nat).length) := by
  refine ⟨⟨by omega, by omega⟩, ?_, ?_, ?_, ?_, ?_, ?_, by decide, ?_⟩
  · exact c2_shrink_of_wellformed.1 [1, 2, 3] (0, 1) (by omega) (by omega)
  · exact c2_shrink_of_wellformed.2.1 [1, 2, 3] 1 1
  · exact c2_shrink_of_wellformed.2.2.1 [1, 2, 3] 0 1
  · exact c2_shrink_of_wellformed.2.2.2.1 [1, 2, 3] 0 2 (by omega)
  · exact c2_shrink_of_wellformed.2.2.2.2.1 [1, 2, 3] 0 0
  · exact c2_shrink_of_wellformed.2.2.2.2.2.1 [1, 2, 3, 4, 5, 6, 7] 0 2 [9]
      (by omega) (by decide) (by decide)
  · exact c2_shrink_of_wellformed.2.2.2.2.2.2 false [5, 5]
      (liftConvs [((0, 1), 2)]) [0, 2] (by decide)

lemma structureStep_no_markers {st : SState} {line : Line}
    (hs : hasSub mStartOneOf line = false) (hf : hasSub mFinishOneOf line = false)
    (hparse : hasSub mReadingByte line = true → (lastTokenInt line).isSome = true)
    (hcur : st.currentOneOf = []) :
    ∃ st', structureStep st line = some st' ∧ st'.OneOfs = st.OneOfs ∧
      st'.currentOneOf = [] ∧
      (st.lastRead.isSome = true → st'.lastRead.isSome = true) ∧
      (hasSub mReadingByte line = true → st'.lastRead.isSome = true) := by
  unfold structureStep
  rw [if_neg (by rw [hs]; exact Bool.false_ne_true)]
  cases hr : hasSub mReadingByte line with
  | true =>
    rw [if_pos rfl]
    obtain ⟨n, hn⟩ := Option.isSome_iff_exists.mp (hparse hr)
    rw [hn]
    refine ⟨_, rfl, rfl, ?_, fun _ => rfl, fun _ => rfl⟩
    simp [hcur]
  | false =>
    rw [if_neg Bool.false_ne_true, if_neg (by rw [hf]; exact Bool.false_ne_true)]
    exact ⟨st, rfl, rfl, hcur, fun h => h, fun h => absurd h Bool.false_ne_true⟩

lemma structureFold_no_markers : ∀ (tr : Trace) (st : SState),
    (∀ line ∈ tr, hasSub mStartOneOf line = false ∧ hasSub mFinishOneOf line = false) →
    (∀ line ∈ tr, hasSub mReadingByte line = true → (lastTokenInt line).isSome = true) →
    st.currentOneOf = [] →
    ∃ st', tr.foldlM structureStep st = some st' ∧ st'.OneOfs = st.OneOfs ∧
      st'.currentOneOf = [] ∧
      (st.lastRead.isSome = true → st'.lastRead.isSome = true) ∧
      ((∃ line ∈ tr, hasSub mReadingByte line = true) → st'.lastRead.isSome = true) := by
  intro tr
  induction tr with
  | nil =>
    intro st _ _ hcur
    exact ⟨st, rfl, rfl, hcur, fun h => h, fun h => absurd h (by simp)⟩
  | cons line rest ih =>
    intro st hno hparse hcur
    obtain ⟨st1, hstep, hOne1, hcur1, hpres1, hread1⟩ :=
      structureStep_no_markers (hno line (by simp)).1 (hno line (by simp)).2
        (hparse line (by simp)) hcur
    obtain ⟨st', hfold, hOne', hcur', hpres', hread'⟩ :=
      ih st1 (fun l hl => hno l (List.mem_cons_of_mem _ hl))
        (fun l hl => hparse l (List.mem_cons_of_mem _ hl)) hcur1
    refine ⟨st', ?_, by rw [hOne', hOne1], hcur', fun h => hpres' (hpres1 h), ?_⟩
    · rw [List.foldlM_cons, hstep]
      exact hfold
    · rintro ⟨l, hl, hrl⟩
      rcases List.mem_cons.mp hl with rfl | hl2
      · exact hpres' (hread1 hrl)
      · exact hread' ⟨l, hl2, hrl⟩

lemma rangeStep_no_markers {st : CState} {line : Line}
    (hfin : hasSub mFinishMulti line = false) (hconv : hasSub mConverting line = false)
    (hparse : hasSub mReadingByte line = true → (lastTokenInt line).isSome = true) :
    ∃ st', rangeStep st line = some st' ∧ st'.conversions = st.conversions := by
  obtain ⟨cv, sm, mf, lr, cm⟩ := st
  unfold rangeStep
  cases hr : hasSub mReadingByte line with
  | true =>
    obtain ⟨n, hn⟩ := Option.isSome_iff_exists.mp (hparse hr)
    cases hsm : hasSub mStartMulti line <;>
      cases sm <;> cases mf <;>
        simp only [hn, hfin, hconv, bind, Option.bind, Bool.false_eq_true, Bool.true_and,
          Bool.false_and, Bool.and_true, Bool.and_false, Option.isNone_none, Option.isNone_some,
          if_true, if_false, eq_self_iff_true, ite_true, ite_false] <;>
        exact ⟨_, rfl, rfl⟩
  | false =>
    cases hsm : hasSub mStartMulti line <;>
      cases sm <;> cases mf <;>
        simp only [hfin, hconv, bind, Option.bind, Bool.false_eq_true, Bool.true_and,
          Bool.false_and, Bool.and_true, Bool.and_false, Option.isNone_none, Option.isNone_some,
          if_true, if_false, eq_self_iff_true, ite_true, ite_false] <;>
        exact ⟨_, rfl, rfl⟩

lemma rangeFold_no_markers : ∀ (tr : Trace) (st : CState),
    (∀ line ∈ tr, hasSub mFinishMulti line = false ∧ hasSub mConverting line = false) →
    (∀ line ∈ tr, hasSub mReadingByte line = true → (lastTokenInt line).isSome = true) →
    ∃ st', tr.foldlM rangeStep st = some st' ∧ st'.conversions = st.conversions := by
  intro tr
  induction tr with
  | nil =>
    intro st _ _
    exact ⟨st, rfl, rfl⟩
  | cons line rest ih =>
    intro st hno hparse
    obtain ⟨st1, hstep, hcv1⟩ := rangeStep_no_markers (hno line (by simp)).1
      (hno line (by simp)).2 (hparse line (by simp))
    obtain ⟨st', hfold, hcv'⟩ := ih st1 (fun l hl => hno l (List.mem_cons_of_mem _ hl))
      (fun l hl => hparse l (List.mem_cons_of_mem _ hl))
    refine ⟨st', ?_, by rw [hcv', hcv1]⟩
    rw [List.foldlM_cons, hstep]
    exact hfold

/-- Claim C3, counterexample.  On an empty trace `structure` reads the
never-assigned local `lastRead` at its `return` (UnboundLocalError); on
an end marker with no begin it indexes an empty list; a conversion
marker with no completed multi-byte read reads the never-assigned
`currentMulti`; a multi-byte end marker with no prior byte read reads
the never-assigned `lastRead`: all four raise instead of returning
empty results. -/
theorem c3_parsers_raise_on_malformed :
    structureFn false 3 [] = none ∧
    structureFn false 3 ["FINISHED OneOf CALL".toList] = none ∧
    rangeConversions ["Converting out-of-range value to 5".toList] = none ∧
    rangeConversions ["FINISHED MULTI-BYTE READ".toList] = none := by
  refine ⟨by decide, by decide, by decide, by decide⟩

/-- Claim C3 (amended): the Feedback Parser is total only on a scoped
class of traces.  `structure` is total whenever `--noStructure` is set;
without that flag it returns normally (with an empty span list) on any
trace that has no OneOf begin/end markers, parseable byte-read offsets,
and at least one byte-read marker; `rangeConversions` returns normally
(with an empty conversion list) on any trace with parseable byte-read
offsets and no multi-byte-end or conversion markers.  On the malformed
traces listed in the claim the functions raise instead. -/
theorem c3_parser_totality_scoped :
    (∀ (n : Nat) (tr : Trace), structureFn true n tr = some ([], (n : Int))) ∧
    (∀ (n : Nat) (tr : Trace),
      (∀ line ∈ tr, hasSub mStartOneOf line = false ∧ hasSub mFinishOneOf line = false) →
      (∀ line ∈ tr, hasSub mReadingByte line = true → (lastTokenInt line).isSome = true) →
      (∃ line ∈ tr, hasSub mReadingByte line = true) →
      ∃ lr, structureFn false n tr = some ([], lr)) ∧
    (∀ tr : Trace,
      (∀ line ∈ tr, hasSub mFinishMulti line = false ∧ hasSub mConverting line = false) →
      (∀ line ∈ tr, hasSub mReadingByte line = true → (lastTokenInt line).isSome = true) →
      rangeConversions tr = some []) := by
  refine ⟨fun n tr => rfl, ?_, ?_⟩
  · intro n tr hno hparse hread
    obtain ⟨st', hfold, hOne, hcur, hpres, hlast⟩ :=
      structureFold_no_markers tr ⟨[], [], none⟩ hno hparse rfl
    obtain ⟨lr, hlr⟩ := Option.isSome_iff_exists.mp (hlast hread)
    refine ⟨lr, ?_⟩
    unfold structureFn
    rw [if_neg Bool.false_ne_true, hfold]
    simp only [hlr, hOne]
  · intro tr hno hparse
    obtain ⟨st', hfold, hcv⟩ :=
      rangeFold_no_markers tr ⟨[], false, none, none, none⟩ hno hparse
    unfold rangeConversions
    rw [hfold, Option.map_some', hcv]

/-- Claim C3, witness for the amended theorem. -/
theorem c3_parser_totality_scoped_witness :
    structureFn true 5 ["FINISHED OneOf CALL".toList] = some ([], 5) ∧
    (∀ line ∈ (["Reading byte at 2".toList] : Trace),
      hasSub mStartOneOf line = false ∧ hasSub mFinishOneOf line = false) ∧
    (∀ line ∈ (["Reading byte at 2".toList] : Trace),
      hasSub mReadingByte line = true → (lastTokenInt line).isSome = true) ∧
    (∃ line ∈ (["Reading byte at 2".toList] : Trace), hasSub mReadingByte line = true) ∧
    (∃ lr, structureFn false 3 ["Reading byte at 2".toList] = some ([], lr)) ∧
    rangeConversions ["Reading byte at 2".toList] = some [] := by
  refine ⟨c3_parser_totality_scoped.1 5 ["FINISHED OneOf CALL".toList],
    by decide, by decide, by decide, ?_, ?_⟩
  · exact c3_parser_totality_scoped.2.1 3 ["Reading byte at 2".toList]
      (by decide) (by decide) (by decide)
  · exact c3_parser_totality_scoped.2.2 ["Reading byte at 2".toList]
      (by decide) (by decide)

/-- Claim C6: normalization safety and idempotence.  (1) If every
in-bounds recorded conversion is already consistent with the candidate
(the byte at the span end equals the converted value and the rest of
the span is zero), `fixRangeConversions` returns the candidate
unchanged.  (2) Applying `fixRangeConversions` to its own successful
result with the same conversion list returns that result unchanged, for
any conversion list. -/
theorem c6_normalization_safety :
    (∀ (t : List Nat) (cs : List ((Nat × Nat) × Nat)),
      ConsistentConvs t cs → fixRangeConversions false t (liftConvs cs) = some t) ∧
    (∀ (ns : Bool) (t : List Nat) (cs : List ((Option Int × Int) × Int)) (t' : List Nat),
      fixRangeConversions ns t cs = some t' →
      fixRangeConversions ns t' cs = some t') := by
  constructor
  · intro t cs h
    show (fixLoop t 0 (liftConvs cs)).map (fun p => p.1) = some t
    rw [fixLoop_consistent h]
    rfl
  · intro ns t cs t' h
    cases ns with
    | true =>
      change some t = some t' at h
      injection h with h1
      rw [← h1]
      change some t = some t
      rfl
    | false =>
      change (fixLoop t 0 cs).map (fun p => p.1) = some t' at h
      cases hfl : fixLoop t 0 cs with
      | none => rw [hfl] at h; exact absurd h (by simp)
      | some p =>
        obtain ⟨tf, m⟩ := p
        rw [hfl, Option.map_some'] at h
        injection h with h1
        show (fixLoop t' 0 cs).map (fun p => p.1) = some t'
        rw [← h1]
        rw [fixLoop_again hfl 0]
        rfl

/-- Claim C6, witness. -/
theorem c6_normalization_safety_witness :
    ConsistentConvs [0, 7, 3] [((0, 1), 7)] ∧
    fixRangeConversions false [0, 7, 3] (liftConvs [((0, 1), 7)]) = some [0, 7, 3] ∧
    fixRangeConversions false [9, 9] (liftConvs [((0, 1), 4)]) = some [0, 4] ∧
    fixRangeConversions false [0, 4] (liftConvs [((0, 1), 4)]) = some [0, 4] := by
  have hcons : ConsistentConvs [0, 7, 3] [((0, 1), 7)] := by
    intro c hc _
    simp only [List.mem_singleton] at hc
    subst hc
    exact ⟨by decide, fun i h1 h2 => by interval_cases i; decide⟩
  refine ⟨hcons, c6_normalization_safety.1 [0, 7, 3] [((0, 1), 7)] hcons, by decide, ?_⟩
  exact c6_normalization_safety.2 false [9, 9] (liftConvs [((0, 1), 4)]) [0, 4] (by decide)

/-- Claim C7: removing the structural span `[4, 7]` from a candidate
that contains it (length at least 8) shortens the candidate by exactly
4 bytes, keeps bytes before offset 4 unchanged, and keeps the bytes
that originally followed offset 7 unchanged. -/
theorem c7_span_removal_frame (t : List Nat) (h : 8 ≤ t.length) :
    (mutOneOfRemoval t (4, 7)).length = t.length - 4 ∧
    (mutOneOfRemoval t (4, 7)).take 4 = t.take 4 ∧
    (mutOneOfRemoval t (4, 7)).drop 4 = t.drop 8 := by
  have h4 : pySliceIdx t.length (4 : Int) = 4 := by
    unfold pySliceIdx
    rw [if_neg (by omega : ¬ (4 : Int) < 0)]
    rw [show ((4 : Int)).toNat = 4 from rfl]
    omega
  have h8 : pySliceIdx t.length ((7 : Int) + 1) = 8 := by
    unfold pySliceIdx
    rw [if_neg (by omega : ¬ (7 : Int) + 1 < 0)]
    rw [show ((7 : Int) + 1).toNat = 8 from rfl]
    omega
  have hmut : mutOneOfRemoval t (4, 7) = t.take 4 ++ t.drop 8 := by
    unfold mutOneOfRemoval pyTake pyDrop
    rw [h4, h8]
  have hlen4 : (t.take 4).length = 4 := by rw [List.length_take]; omega
  refine ⟨?_, ?_, ?_⟩
  · rw [hmut, List.length_append, List.length_take, List.length_drop]
    omega
  · rw [hmut, List.take_append_of_le_length (by rw [List.length_take]; omega),
      List.take_take, Nat.min_self]
  · rw [hmut, List.drop_append_of_le_length (by rw [List.length_take]; omega),
      List.drop_eq_nil_of_le (by rw [List.length_take]; omega), List.nil_append]

/-- Claim C7, witness. -/
theorem c7_span_removal_frame_witness :
    8 ≤ ([0, 1, 2, 3, 4, 5, 6, 7, 8, 9] : List Nat).length ∧
    ((mutOneOfRemoval [0, 1, 2, 3, 4, 5, 6, 7, 8, 9] (4, 7)).length =
        ([0, 1, 2, 3, 4, 5, 6, 7, 8, 9] : List Nat).length - 4 ∧
      (mutOneOfRemoval [0, 1, 2, 3, 4, 5, 6, 7, 8, 9] (4, 7)).take 4 =
        ([0, 1, 2, 3, 4, 5, 6, 7, 8, 9] : List Nat).take 4 ∧
      (mutOneOfRemoval [0, 1, 2, 3, 4, 5, 6, 7, 8, 9] (4, 7)).drop 4 =
        ([0, 1, 2, 3, 4, 5, 6, 7, 8, 9] : List Nat).drop 8) :=
  ⟨by decide, c7_span_removal_frame [0, 1, 2, 3, 4, 5, 6, 7, 8, 9] (by decide)⟩

/-- Claim C9: with padding enabled, finalization pads the candidate to
at least one byte past the last read offset `s1`, changes no existing
byte, and appends only zero bytes. -/
theorem c9_padding_restores_reachability (s1 : Int) (t : List Nat) :
    s1 + 1 ≤ ((padFinal false s1 t).length : Int) ∧
    (padFinal false s1 t).take t.length = t ∧
    ∀ b ∈ (padFinal false s1 t).drop t.length, b = 0 := by
  unfold padFinal
  by_cases hc : (t.length : Int) < s1 + 1
  · rw [if_pos ⟨rfl, hc⟩]
    refine ⟨?_, ?_, ?_⟩
    · rw [List.length_append, List.length_replicate]
      omega
    · exact List.take_left t (List.replicate (s1 + 1 - (t.length : Int)).toNat 0)
    · rw [List.drop_left]
      intro b hb
      exact List.eq_of_mem_replicate hb
  · rw [if_neg (fun hh => hc hh.2)]
    refine ⟨by omega, List.take_length t, ?_⟩
    rw [List.drop_eq_nil_of_le (le_refl _)]
    intro b hb
    exact absurd hb (List.not_mem_nil b)

/-- Claim C1, counterexample.  With the default criteria, a seed of 3
bytes, and an oracle that accepts every candidate while reporting that
only byte 0 was read, the pre-loop phase truncates the candidate to its
first byte and writes that 1-byte candidate to the output path, yet the
only buffers ever run through the Candidate Runner are the original
3-byte seed — the written bytes were never run, so a write can happen
without its exact bytes having been checked. -/
theorem c1_writes_unchecked_bytes :
    initialPhase ⟨none, false, false, false⟩
      (fun _ => ["Reading byte at 0".toList, "ERROR: Failed: x".toList])
      (fun _ => false) [1, 2, 3] =
      .ready [1] ([], 0) ["Reading byte at 0".toList, "ERROR: Failed: x".toList]
        [[1]] [[1, 2, 3], [1, 2, 3]] ∧
    [1] ∈ ([[1]] : List (List Nat)) ∧
    [1] ∉ ([[1, 2, 3], [1, 2, 3]] : List (List Nat)) := by
  refine ⟨by decide, by decide, by decide⟩

/-- Claim C1 (amended): a mutation is committed only after the Criteria
Checker accepts its trace, and the bytes committed to the output path
are that accepted candidate after conversion normalization — same
length, and byte-for-byte identical to the checked bytes when
`--noStructure` is set.  (The truncation write of the pre-loop phase
and the final padding write are not themselves re-checked.) -/
theorem c1_commit_requires_checks (cfg : Config) (oracle : List Nat → Trace)
    (newTest w : List Nat)
    (h : passAccept cfg oracle newTest = some (some w)) :
    checks cfg.checkString (oracle newTest) = true ∧
    (∃ convs, rangeConversions (oracle newTest) = some convs ∧
      fixRangeConversions cfg.noStructure newTest convs = some w) ∧
    w.length = newTest.length ∧
    (cfg.noStructure = true → w = newTest) := by
  unfold passAccept at h
  by_cases hc : checks cfg.checkString (oracle newTest) = true
  · rw [if_pos hc] at h
    injection h with h1
    unfold updateCurrentModel at h1
    cases hrc : rangeConversions (oracle newTest) with
    | none => rw [hrc] at h1; exact absurd h1 (by simp)
    | some convs =>
      rw [hrc] at h1
      refine ⟨hc, ⟨convs, rfl, h1⟩, fixRangeConversions_length h1, ?_⟩
      intro hns
      rw [hns] at h1
      change some newTest = some w at h1
      injection h1 with h2
      exact h2.symm
  · rw [if_neg hc] at h
    exact absurd h (by simp)

/-- Claim C1, witness for the amended theorem. -/
theorem c1_commit_requires_checks_witness :
    passAccept ⟨none, false, false, false⟩
      (fun _ => ["ERROR: Failed: x".toList]) [2, 2] = some (some [2, 2]) ∧
    (checks none ((fun (_ : List Nat) => ["ERROR: Failed: x".toList]) [2, 2]) = true ∧
      (∃ convs, rangeConversions ((fun (_ : List Nat) => ["ERROR: Failed: x".toList]) [2, 2]) =
          some convs ∧ fixRangeConversions false [2, 2] convs = some [2, 2]) ∧
      ([2, 2] : List Nat).length = ([2, 2] : List Nat).length ∧
      (false = true → [2, 2] = [2, 2])) :=
  ⟨by decide, c1_commit_requires_checks ⟨none, false, false, false⟩
    (fun _ => ["ERROR: Failed: x".toList]) [2, 2] [2, 2] (by decide)⟩

/-- Claim C4, counterexample.  With `--timeout 0` the elapsed time
already exceeds the timeout at the very first `runCandidate(test)`
call, which is outside the `try` of the main loop: the
`TimeoutException` escapes `main` and the process dies before opening,
normalizing, or writing anything — in particular no output file is
written, where the claim promises the original candidate is written. -/
theorem c4_timeout_zero_no_output :
    initialPhase ⟨none, false, false, false⟩
      (fun _ => ["ERROR: Failed: x".toList]) (fun _ => true) [1, 2, 3] =
      .timedOut [] [] ∧
    (Phase1Result.timedOut [] []).writesOf = [] := by
  refine ⟨by decide, rfl⟩

/-- Claim C4 (amended): when the configured timeout is already exceeded
at the first oracle invocation — the guaranteed behavior of
`--timeout 0` under a positively-elapsing clock — the reducer
terminates by an uncaught `TimeoutException` having written nothing at
all to the output path; the best-candidate-on-timeout guarantee only
applies to timeouts that first fire inside the reduction loop. -/
theorem c4_first_call_timeout_writes_nothing (cfg : Config)
    (oracle : List Nat → Trace) (timeoutAt : Nat → Bool) (testBytes : List Nat)
    (h : timeoutAt 0 = true) :
    initialPhase cfg oracle timeoutAt testBytes = .timedOut [] [] ∧
    (initialPhase cfg oracle timeoutAt testBytes).writesOf = [] := by
  have h1 : initialPhase cfg oracle timeoutAt testBytes = .timedOut [] [] := by
    unfold initialPhase
    rw [if_pos h]
  exact ⟨h1, by rw [h1]; rfl⟩

/-- Claim C4, witness for the amended theorem. -/
theorem c4_first_call_timeout_writes_nothing_witness :
    (fun (_ : Nat) => true) 0 = true ∧
    (initialPhase ⟨none, true, false, false⟩ (fun _ => []) (fun _ => true) [7] =
        .timedOut [] [] ∧
      (initialPhase ⟨none, true, false, false⟩ (fun _ => []) (fun _ => true) [7]).writesOf = []) :=
  ⟨rfl, c4_first_call_timeout_writes_nothing ⟨none, true, false, false⟩
    (fun _ => []) (fun _ => true) [7] rfl⟩

/-- Claim C8: in non-search mode, when the seed's trace fails the
criteria (and the very first run does not time out), the run stops at
the precondition check with exit status 1: the only oracle invocation
is the seed itself, the candidate file is never opened, and nothing is
written to the output path. -/
theorem c8_seed_fails_criteria_aborts (cfg : Config) (oracle : List Nat → Trace)
    (timeoutAt : Nat → Bool) (testBytes : List Nat)
    (hsearch : cfg.search = false) (ht : timeoutAt 0 = false)
    (hfail : checks cfg.checkString (oracle testBytes) = false) :
    initialPhase cfg oracle timeoutAt testBytes = .preconditionExit [testBytes] ∧
    (initialPhase cfg oracle timeoutAt testBytes).writesOf = [] := by
  have h1 : initialPhase cfg oracle timeoutAt testBytes = .preconditionExit [testBytes] := by
    unfold initialPhase
    rw [if_neg (by rw [ht]; exact Bool.false_ne_true)]
    rw [if_pos ⟨hsearch, hfail⟩]
  exact ⟨h1, by rw [h1]; rfl⟩

/-- Claim C8, witness. -/
theorem c8_seed_fails_criteria_aborts_witness :
    (⟨some "ERROR: Failed:".toList, false, false, false⟩ : Config).search = false ∧
    (fun (_ : Nat) => false) 0 = false ∧
    checks (⟨some "ERROR: Failed:".toList, false, false, false⟩ : Config).checkString
      ((fun (_ : List Nat) => ["NOTHING HERE".toList]) [9, 9]) = false ∧
    (initialPhase ⟨some "ERROR: Failed:".toList, false, false, false⟩
        (fun _ => ["NOTHING HERE".toList]) (fun _ => false) [9, 9] =
        .preconditionExit [[9, 9]] ∧
      (initialPhase ⟨some "ERROR: Failed:".toList, false, false, false⟩
          (fun _ => ["NOTHING HERE".toList]) (fun _ => false) [9, 9]).writesOf = []) :=
  ⟨rfl, rfl, by decide, c8_seed_fails_criteria_aborts _ _ _ _ rfl rfl (by decide)⟩

/-- Claim C10: with `--noStructure`, `structure` always returns an
empty span list paired with the current candidate's length, so at every
commit and at finalization the recorded `lastReadOffset` equals the
candidate's length; with padding enabled the finalization step
therefore appends exactly one zero byte, making the output exactly the
reduced candidate plus one trailing zero, whatever the original
candidate and whatever sequence of candidates the passes committed. -/
theorem c10_nostructure_pad_one_zero :
    (∀ (n : Nat) (tr : Trace), structureFn true n tr = some ([], (n : Int))) ∧
    (∀ (orig : List Nat) (commits : List (List Nat)),
      runNS orig commits = commits.getLastD orig ++ [0]) := by
  constructor
  · intro n tr
    rfl
  · intro orig commits
    have hpad : ∀ t : List Nat, padFinal false (t.length : Int) t = t ++ [0] := by
      intro t
      unfold padFinal
      rw [if_pos ⟨rfl, by omega⟩]
      congr 1
      rw [show ((t.length : Int) + 1 - t.length).toNat = 1 by omega]
      rfl
    have hfold : ∀ (cs : List (List Nat)) (c0 : List Nat),
        cs.foldl updateNS (c0, (c0.length : Int)) =
          (cs.getLastD c0, ((cs.getLastD c0).length : Int)) := by
      intro cs
      induction cs with
      | nil => intro c0; rfl
      | cons c rest ih =>
        intro c0
        rw [List.foldl_cons, List.getLastD_cons]
        exact ih c
    unfold runNS
    rw [hfold]
    exact hpad _

end Reducer
